import Mathlib

/-!
# Countdown page script (`src/index.js`): shallow embedding and properties

Two independent parts of the script are modelled.

* The countdown (`pad`, `parseTarget`, `tick`, the initialising block). Time values are
  integers (milliseconds since the epoch), as ECMAScript time values are. While the
  difference `target - now` is below `2^53` in magnitude (any valid target against any clock
  reading within some 11000 years of the epoch) the double-precision operations of `tick`
  (`-`, `/ 1000`, `Math.floor`, `%`) return the exact integer results, so they are modelled
  by the integer operations: `Math.floor(a / b)` by floor division, `%` by the remainder
  that takes the sign of the dividend. Text written to the page is kept as a log of
  `textContent` assignments. The `const timerId` binding is modelled with its temporal dead
  zone: reading it before its declaration has run throws a `ReferenceError`.
* The particle field (`spawnParticles`, `updateParticles`, `drawParticles`, `spawnRipple`,
  `updateRipples`). The definitions are generic in the number type `F`; the host functions
  (`Math.random`, `Math.cos`, `Math.floor`, ...) are parameters. Properties that do not depend
  on the arithmetic are proved for every `F`; the numeric ones are proved on exact rationals,
  and the ripple lifetime also for any arithmetic that rounds each literal and each result
  with relative error at most `2^-53`.
-/

namespace Countdown

/-! ## The page: display slots and the write log -/

/-- The six elements the script writes to (`getElementById` results). -/
inductive Slot where
  | days | hours | minutes | seconds | note | targetDisplay
  deriving DecidableEq, Repr

/-- Errors the script can throw. -/
inductive JSError where
  | referenceError (name : String)
  deriving DecidableEq, Repr

/-- State of the countdown part of the page.
`writes` is the log of `el.textContent = v` assignments, oldest first.
`timerId` is the `const timerId` binding: `none` while it is in its temporal dead zone.
`interval` is the host's repeating schedule: the handle of the live interval, if any. -/
structure Page where
  writes : List (Slot × String)
  timerId : Option Nat
  interval : Option Nat
  deriving DecidableEq, Repr

/-- The page before the script runs. -/
def Page.initial : Page := { writes := [], timerId := none, interval := none }

/-- The assignment `el.textContent = v`. -/
def Page.write (p : Page) (el : Slot) (v : String) : Page :=
  { p with writes := p.writes ++ [(el, v)] }

/-- Text currently shown by `el`: the last value written to it (`none`: never written). -/
def Page.textContent (p : Page) (el : Slot) : Option String :=
  ((p.writes.reverse.find? (fun w => w.1 = el)).map Prod.snd)

/-- The host call `clearInterval(id)`: cancels the interval with that handle, if live. -/
def clearInterval (id : Nat) (p : Page) : Page :=
  if p.interval = some id then { p with interval := none } else p

/-- Result of running a piece of script: the state reached and the error thrown, if any. -/
structure Completion where
  state : Page
  thrown : Option JSError
  deriving DecidableEq, Repr

/-! ## `pad`, `parseTarget`, `tick` -/

/-- The conversion `String(n)` on an integer-valued number. -/
def numberToString (n : Int) : String := toString n

/-- The method `s.padStart(targetLength, c)` with a one-character filler. -/
def padStart (s : String) (targetLength : Nat) (c : Char) : String :=
  String.mk (List.replicate (targetLength - s.length) c) ++ s

/-- Source: `function pad(n){ return String(n).padStart(2,'0'); }` -/
def pad (n : Int) : String := padStart (numberToString n) 2 '0'

/-- Source: `function parseTarget(iso)`: `dateCtor iso` is the time value of `new Date(iso)`,
`none` standing for `NaN` (an invalid date); the result `none` is `null`. -/
def parseTarget (dateCtor : String → Option Int) (iso : String) : Option Int :=
  let d := dateCtor iso
  if d.isSome then d else none

/-- Source: `function tick()`, with `target` the time value of `TARGET_DATE` and `now` the time
value of `new Date()`. -/
def tick (target now : Int) (p : Page) : Completion :=
  let diff := target - now
  if diff ≤ 0 then
    let p := p.write .days "0"
    let p := p.write .hours "00"
    let p := p.write .minutes "00"
    let p := p.write .seconds "00"
    let p := p.write .note "Event started!"
    -- clearInterval(timerId): reading `timerId` in its dead zone throws
    match p.timerId with
    | none => { state := p, thrown := some (.referenceError "timerId") }
    | some id => { state := clearInterval id p, thrown := none }
  else
    let totalSec := Int.fdiv diff 1000
    let days := Int.fdiv totalSec 86400
    let hours := Int.fdiv (Int.tmod totalSec 86400) 3600
    let minutes := Int.fdiv (Int.tmod totalSec 3600) 60
    let seconds := Int.tmod totalSec 60
    let p := p.write .days (numberToString days)
    let p := p.write .hours (pad hours)
    let p := p.write .minutes (pad minutes)
    let p := p.write .seconds (pad seconds)
    { state := p, thrown := none }

/-- The host call `setInterval(tick, 1000)`: starts the repeating schedule and returns its
handle (a positive integer; the page has no other timers). -/
def setInterval (p : Page) : Nat × Page := (1, { p with interval := some 1 })

/-- The top-level countdown block (lines 18-49): parse the target, then either report the
invalid date or show the target, run `tick()` once and start the repeating schedule.
An error thrown by the first `tick()` is uncaught, so the rest of the block does not run.
`toLocaleString` is the host's date formatting. -/
def init (dateCtor : String → Option Int) (toLocaleString : Int → String) (iso : String)
    (now : Int) (p : Page) : Completion :=
  match parseTarget dateCtor iso with
  | none =>
    let p := p.write .note "Invalid target date — edit script.js TARGET_ISO."
    let p := p.write .targetDisplay ""
    { state := p, thrown := none }
  | some target =>
    let p := p.write .targetDisplay ("Target: " ++ toLocaleString target)
    let r := tick target now p
    match r.thrown with
    | some e => { state := r.state, thrown := some e }
    | none =>
      let (id, p) := setInterval r.state
      { state := { p with timerId := some id }, thrown := none }

/-- One period of the repeating schedule: the host calls `tick` if the interval is live. -/
def fire (target : Int) (p : Page) (now : Int) : Page :=
  if p.interval.isSome then (tick target now p).state else p

/-- The page after the schedule's successive periods, `clocks` being the clock readings
at those periods. -/
def run (target : Int) (p : Page) (clocks : List Int) : Page :=
  clocks.foldl (fire target) p

/-- Source: `const TARGET_ISO`, the configured target literal. -/
def TARGET_ISO : String := "2028-07-14T16:00:00"

end Countdown


namespace ParticleField

/-! ## The particle field

Numbers have type `F`; the definitions use only the operations the script applies to them,
so they can be read at any number type (decimal literals are read through `OfScientific`,
integer literals are written with a trailing `.0`). -/

/-- Host functions used by the particle code. `random k` is the value returned by the
`k`-th call of `Math.random()`; `toText` is the conversion of a number inside a template
literal. -/
structure Host (F : Type) where
  random : Nat → F
  cos : F → F
  sin : F → F
  floor : F → F
  max : F → F → F
  PI : F
  toText : F → String

/-- The objects pushed by `spawnParticles`. -/
structure Particle (F : Type) where
  x : F
  y : F
  vx : F
  vy : F
  size : F
  life : F
  age : F
  color : String
  spin : F
  rot : F
  deriving DecidableEq, Repr

/-- The objects pushed by `spawnRipple`. -/
structure Ripple (F : Type) where
  x : F
  y : F
  r : F
  alpha : F
  deriving DecidableEq, Repr

/-- One `save ... restore` group of canvas calls issued by `drawParticles`. -/
structure ParticleDraw (F : Type) where
  globalAlpha : F
  translate : F × F
  rotate : F
  fillStyle : String
  rect : F × F × F × F
  deriving DecidableEq, Repr

/-- The array method `xs.splice(start, deleteCount)` (the array after removal). -/
def splice {α : Type} (xs : List α) (start deleteCount : Nat) : List α :=
  xs.take start ++ xs.drop (start + deleteCount)

/-- The loop shape shared by `updateParticles` and `updateRipples`:
`for(let i = xs.length-1; i>=0; i--){ const e = xs[i]; body(e); if(cond(e)) xs.splice(i,1); }`
where `body` mutates the element in place. The first argument is `i + 1`. Reading an index
outside the array gives `undefined`, whose field access throws: the result is `none`. -/
def backwardLoop {α : Type} (body : α → α) (cond : α → Bool) :
    Nat → List α → Option (List α)
  | 0, xs => some xs
  | i + 1, xs =>
    match xs.get? i with
    | none => none
    | some e =>
      let e := body e
      let xs := xs.set i e
      let xs := if cond e then splice xs i 1 else xs
      backwardLoop body cond i xs

section
variable {F : Type} [Add F] [Sub F] [Mul F] [Div F] [Neg F] [OfScientific F] [LT F]
  [∀ a b : F, Decidable (a < b)]

/-- Source: `const maxParticleLife = 80; // frames` -/
def maxParticleLife : F := 80.0

/-- Source: `function random(min,max){ return Math.random()*(max-min)+min; }`, as the `k`-th call
of `Math.random()`. -/
def random (H : Host F) (k : Nat) (min max : F) : F := H.random k * (max - min) + min

/-- The object built in one iteration of the loop of `spawnParticles` (lines 85-97); it
makes the calls `k`, ..., `k + 7` of `Math.random()`, in evaluation order. -/
def newParticle (H : Host F) (k : Nat) (x y : F) : Particle F :=
  let speed := random H k 1.6 6.5
  let angle := random H (k + 1) 0.0 (H.PI * 2.0)
  { x := x
    y := y
    vx := H.cos angle * speed
    vy := H.sin angle * speed
    size := random H (k + 2) 2.0 9.0
    life := H.floor (random H (k + 3) (maxParticleLife * 0.4) maxParticleLife)
    age := 0.0
    color := "hsl(" ++ H.toText (H.floor (random H (k + 4) 0.0 360.0)) ++ " , 75% , "
      ++ H.toText (H.floor (random H (k + 5) 50.0 65.0)) ++ "%)"
    spin := random H (k + 6) (-0.15) 0.15
    rot := random H (k + 7) 0.0 (H.PI * 2.0) }

/-- Source: `function spawnParticles(x,y,count = 28)`: the `particles` array afterwards. `count` is
`none` when the argument is omitted; `k` is the number of `Math.random()` calls made before. -/
def spawnParticles (H : Host F) (k : Nat) (particles : List (Particle F)) (x y : F)
    (count : Option Nat) : List (Particle F) :=
  let count := count.getD 28
  let particles := (List.range count).foldl
    (fun ps i => ps ++ [newParticle H (k + 8 * i) x y]) particles
  -- cap particle count
  if particles.length > 1200 then splice particles 0 (particles.length - 1200) else particles

/-- Body of the loop of `updateParticles` (lines 113-119), on the element `p`. -/
def stepParticle (p : Particle F) : Particle F :=
  let p := { p with age := p.age + 1.0 }
  let p := { p with x := p.x + p.vx }
  let p := { p with y := p.y + p.vy }
  let p := { p with vy := p.vy + 0.04 }
  let p := { p with vx := p.vx * 0.996 }
  let p := { p with vy := p.vy * 0.998 }
  { p with rot := p.rot + p.spin }

/-- Source: `function updateParticles()`: the `particles` array afterwards. -/
def updateParticles (particles : List (Particle F)) : Option (List (Particle F)) :=
  backwardLoop stepParticle (fun p => decide (p.age > p.life)) particles.length particles

/-- Source: `function drawParticles()`: the canvas calls, one group per particle. -/
def drawParticles (H : Host F) (particles : List (Particle F)) : List (ParticleDraw F) :=
  particles.map fun p =>
    let alpha := 1.0 - (p.age / p.life)
    { globalAlpha := H.max 0.0 alpha
      translate := (p.x, p.y)
      rotate := p.rot
      fillStyle := p.color
      rect := ((-p.size) / 2.0, (-p.size) / 2.0, p.size, p.size * 1.4) }

/-- Source: `function spawnRipple(x,y)`: the `ripples` array afterwards. -/
def spawnRipple (ripples : List (Ripple F)) (x y : F) : List (Ripple F) :=
  ripples ++ [{ x := x, y := y, r := 2.0, alpha := 0.6 }]

/-- Body of the loop of `updateRipples` (lines 148-149), on the element `r`. -/
def stepRipple (r : Ripple F) : Ripple F :=
  let r := { r with r := r.r + 6.0 }
  { r with alpha := r.alpha * 0.95 }

/-- Source: `function updateRipples()`: the `ripples` array afterwards. -/
def updateRipples (ripples : List (Ripple F)) : Option (List (Ripple F)) :=
  backwardLoop stepRipple (fun r => decide (r.alpha < 0.02)) ripples.length ripples

end

end ParticleField

/-! ## Vocabulary used to state the properties -/

namespace Countdown

/-- Number denoted by a string read as a decimal numeral. -/
def decimalValue (s : String) : Nat :=
  s.toList.foldl (fun acc c => 10 * acc + (c.toNat - 48)) 0

/-- Every character of the string is one of `0`..`9`. -/
def allDigits (s : String) : Bool := s.toList.all Char.isDigit

/-- The string is the two-digit, zero-padded decimal numeral of `n`. -/
def TwoDigit (s : String) (n : Nat) : Prop :=
  s.length = 2 ∧ allDigits s = true ∧ decimalValue s = n

/-- The string is the decimal numeral of `n` without padding: non-empty, digits only,
denoting `n`, and with a leading `0` only when it is the numeral `0` itself. -/
def Unpadded (s : String) (n : Nat) : Prop :=
  s.toList ≠ [] ∧ allDigits s = true ∧ decimalValue s = n ∧
    (s.toList.head? = some '0' → s = "0")

/-- The four countdown fields as currently shown. -/
def Page.fields (p : Page) : List (Option String) :=
  [p.textContent .days, p.textContent .hours, p.textContent .minutes, p.textContent .seconds]

/-- Number of times the started message has been written to the status note. -/
def Page.startedWrites (p : Page) : Nat :=
  p.writes.count (Slot.note, "Event started!")

/-- The five assignments of the started state (lines 29-33), in order. -/
def startedWritesList : List (Slot × String) :=
  [(Slot.days, "0"), (Slot.hours, "00"), (Slot.minutes, "00"), (Slot.seconds, "00"),
   (Slot.note, "Event started!")]

/-- The schedule is live and bound to `timerId`, and the started state was never written. -/
def Page.Counting (p : Page) : Prop :=
  p.interval = some 1 ∧ p.timerId = some 1 ∧ p.startedWrites = 0

/-- The started state is shown, was written exactly once, and no schedule is live. -/
def Page.Started (p : Page) : Prop :=
  p.fields = [some "0", some "00", some "00", some "00"] ∧
    p.textContent .note = some "Event started!" ∧ p.interval = none ∧ p.startedWrites = 1

/-- A sample host date parser for concrete runs: it knows the configured literal only
(read as UTC) and gives `NaN` on any other text. -/
def sampleDate (iso : String) : Option Int :=
  if iso = TARGET_ISO then some 1847203200000 else none

/-- A sample host date formatter for concrete runs. -/
def sampleLocale (t : Int) : String := toString t

/-- A page on which the repeating schedule is live (as left by a completed `init`). -/
def Page.live : Page := { writes := [], timerId := some 1, interval := some 1 }

end Countdown

namespace ParticleField

section
variable {F : Type} [Add F] [Sub F] [Mul F] [Div F] [Neg F] [OfScientific F] [LT F]
  [∀ a b : F, Decidable (a < b)]

/-- The particles created by one call `spawnParticles(x, y, n)`, in creation order. -/
def freshParticles (H : Host F) (k : Nat) (x y : F) (n : Nat) : List (Particle F) :=
  (List.range n).map (fun i => newParticle H (k + 8 * i) x y)

/-- The per-frame physics step as the specification words it: age + 1; position +
velocity (the old velocity); vertical velocity `(vy + 0.04) * 0.998`; horizontal velocity
`vx * 0.996`; rotation + spin. -/
def specPhysics (p : Particle F) : Particle F :=
  { x := p.x + p.vx
    y := p.y + p.vy
    vx := p.vx * 0.996
    vy := (p.vy + 0.04) * 0.998
    size := p.size
    life := p.life
    age := p.age + 1.0
    color := p.color
    spin := p.spin
    rot := p.rot + p.spin }

/-- The per-frame update as the specification words it: every particle takes the physics
step once, then those whose age exceeds their lifetime are removed, order kept. -/
def specUpdateParticles (particles : List (Particle F)) : List (Particle F) :=
  (particles.map specPhysics).filter (fun p => decide (¬ p.age > p.life))

/-- The per-frame ripple update as the specification words it: radius + 6, opacity * 0.95,
then ripples whose opacity is below 0.02 are removed, order kept. -/
def specUpdateRipples (ripples : List (Ripple F)) : List (Ripple F) :=
  (ripples.map (fun r => { r with r := r.r + 6.0, alpha := r.alpha * 0.95 })).filter
    (fun r => decide (¬ r.alpha < 0.02))

/-- The `ripples` array after `n` successive calls of `updateRipples`. -/
def ripplesAfter : Nat → List (Ripple F) → Option (List (Ripple F))
  | 0, ripples => some ripples
  | n + 1, ripples => (ripplesAfter n ripples).bind updateRipples

end

/-- The render opacity of `drawParticles` before clamping, `1 - age / life`, on exact
rationals. -/
def opacity (age life : ℚ) : ℚ := 1 - age / life

/-- What the script relies on from the host, on exact rationals: `Math.floor` is the floor,
`Math.max` the maximum, and `Math.random()` returns values in `[0, 1)`. -/
def Host.Standard (H : Host ℚ) : Prop :=
  (∀ q : ℚ, H.floor q = (⌊q⌋ : ℚ)) ∧ (∀ a b : ℚ, H.max a b = Max.max a b) ∧
    ∀ k : Nat, 0 ≤ H.random k ∧ H.random k < 1

/-- Every particle has an age between 0 and its lifetime, and a positive lifetime. -/
def Aged (particles : List (Particle ℚ)) : Prop :=
  ∀ p ∈ particles, 0 ≤ p.age ∧ p.age ≤ p.life ∧ 0 < p.life

/-- A sample host on exact rationals for concrete runs; its `k`-th random value is
`1 / (k + 2)`, so all random values differ. -/
def sampleHost : Host ℚ :=
  { random := fun k => 1 / ((k : ℚ) + 2)
    cos := fun _ => 1
    sin := fun _ => 0
    floor := fun q => (⌊q⌋ : ℚ)
    max := fun a b => Max.max a b
    PI := 355 / 113
    toText := fun q => toString q }

end ParticleField

namespace ParticleField

/-! ## Rounding arithmetic

A number type on which every literal and every result of `+` and `*` is rounded by a
function `rnd`, used to check that the ripple lifetime does not depend on exact arithmetic.
Double-precision arithmetic in its normal range is of this kind, with relative error at most
`2^-53`. -/

/-- Numbers under the rounding `rnd`. -/
structure Rounded (rnd : ℚ → ℚ) where
  val : ℚ
  deriving DecidableEq

/-- Rounded sum. -/
instance instAddRounded (rnd : ℚ → ℚ) : Add (Rounded rnd) :=
  ⟨fun a b => ⟨rnd (a.val + b.val)⟩⟩

/-- Rounded product. -/
instance instMulRounded (rnd : ℚ → ℚ) : Mul (Rounded rnd) :=
  ⟨fun a b => ⟨rnd (a.val * b.val)⟩⟩

/-- Rounded decimal literal. -/
instance instOfScientificRounded (rnd : ℚ → ℚ) : OfScientific (Rounded rnd) :=
  ⟨fun m s e => ⟨rnd (OfScientific.ofScientific m s e)⟩⟩

/-- Comparison of the values. -/
instance instLTRounded (rnd : ℚ → ℚ) : LT (Rounded rnd) :=
  ⟨fun a b => a.val < b.val⟩

/-- Comparison is decidable. -/
instance instDecidableLTRounded (rnd : ℚ → ℚ) (a b : Rounded rnd) : Decidable (a < b) :=
  inferInstanceAs (Decidable (a.val < b.val))

/-- Opacity of a ripple after `k` updates under the rounding `rnd`. -/
def roundedAlpha (rnd : ℚ → ℚ) : Nat → ℚ
  | 0 => rnd 0.6
  | k + 1 => rnd (roundedAlpha rnd k * rnd 0.95)

/-- Radius of a ripple after `k` updates under the rounding `rnd`. -/
def roundedRadius (rnd : ℚ → ℚ) : Nat → ℚ
  | 0 => rnd 2.0
  | k + 1 => rnd (roundedRadius rnd k + rnd 6.0)

end ParticleField

/-! ## Countdown: lemmas -/

namespace Countdown

theorem textContent_write_same (p : Page) (el : Slot) (v : String) :
    (p.write el v).textContent el = some v := by
  simp [Page.write, Page.textContent]

theorem textContent_write_ne (p : Page) (el el' : Slot) (v : String) (h : el ≠ el') :
    (p.write el v).textContent el' = p.textContent el' := by
  simp [Page.write, Page.textContent, h]

theorem digitChar_toNat (k : Nat) (hk : k < 10) :
    (Nat.digitChar k).toNat - 48 = k ∧ (Nat.digitChar k).isDigit = true ∧
      (k ≠ 0 → Nat.digitChar k ≠ '0') := by
  interval_cases k <;> decide

/-- Numeral produced by the digit loop behind `Nat.repr`, with enough fuel. -/
theorem toDigitsCore_spec : ∀ (fuel n : Nat) (ds : List Char), n < fuel →
    ∃ pre : List Char, Nat.toDigitsCore 10 fuel n ds = pre ++ ds ∧ pre ≠ [] ∧
      pre.all Char.isDigit = true ∧
      pre.foldl (fun acc c => 10 * acc + (c.toNat - 48)) 0 = n ∧
      (pre.head? = some '0' → pre = ['0']) := by
  intro fuel
  induction fuel with
  | zero => intro n ds h; omega
  | succ fuel ih =>
    intro n ds h
    obtain ⟨hv, hd, hz⟩ := digitChar_toNat (n % 10) (Nat.mod_lt _ (by decide))
    by_cases h0 : n / 10 = 0
    · refine ⟨[Nat.digitChar (n % 10)], ?_, by simp, by simp [hd], ?_, ?_⟩
      · simp [Nat.toDigitsCore, h0]
      · simp [hv]; omega
      · intro hh
        simp only [List.head?_cons, Option.some.injEq] at hh
        rw [hh]
    · have hlt : n / 10 < fuel := by omega
      obtain ⟨pre, hpre, hne, hall, hval, hhead⟩ := ih (n / 10) (Nat.digitChar (n % 10) :: ds) hlt
      refine ⟨pre ++ [Nat.digitChar (n % 10)], ?_, by simp, ?_, ?_, ?_⟩
      · simp [Nat.toDigitsCore, h0, hpre]
      · simp [List.all_append, hall, hd]
      · rw [List.foldl_append, hval]; simp [hv]; omega
      · intro hh
        exfalso
        cases pre with
        | nil => exact hne rfl
        | cons c cs =>
          simp only [List.cons_append, List.head?_cons, Option.some.injEq] at hh
          have := hhead (by simp [hh])
          rw [this] at hval
          simp at hval
          omega

theorem numberToString_unpadded (n : Nat) : Unpadded (numberToString (n : Int)) n := by
  obtain ⟨pre, hpre, hne, hall, hval, hhead⟩ := toDigitsCore_spec (n + 1) n [] (by omega)
  have hs : numberToString (n : Int) = String.mk pre := by
    show Nat.repr n = _
    simp [Nat.repr, Nat.toDigits, hpre, List.asString]
  rw [hs]
  refine ⟨by simpa using hne, by simpa [allDigits] using hall, by simpa [decimalValue] using hval, ?_⟩
  intro hh
  have := hhead (by simpa using hh)
  rw [this]

theorem pad_twoDigit (n : Nat) (h : n ≤ 59) : TwoDigit (pad (n : Int)) n := by
  interval_cases n <;> exact ⟨by decide, by decide, by decide⟩

end Countdown

namespace Countdown

theorem fdiv_natCast (a b : Nat) : Int.fdiv (a : Int) (b : Int) = ((a / b : Nat) : Int) := by
  rw [Int.fdiv_eq_ediv _ (Int.ofNat_nonneg b)]; norm_cast

theorem tmod_natCast (a b : Nat) : Int.tmod (a : Int) (b : Int) = ((a % b : Nat) : Int) := by
  rw [Int.tmod_eq_emod (Int.ofNat_nonneg a) (Int.ofNat_nonneg b)]; norm_cast

/-- Writes of a `tick` run before the target: the four fields, nothing else. -/
theorem tick_before (target now : Int) (p : Page) (h : 0 < target - now) (t : Nat)
    (ht : Int.fdiv (target - now) 1000 = (t : Int)) :
    tick target now p =
      { state := { p with writes := p.writes ++
          [(Slot.days, numberToString ((t / 86400 : Nat) : Int)),
           (Slot.hours, pad ((t % 86400 / 3600 : Nat) : Int)),
           (Slot.minutes, pad ((t % 3600 / 60 : Nat) : Int)),
           (Slot.seconds, pad ((t % 60 : Nat) : Int))] },
        thrown := none } := by
  have hn : ¬ (target - now ≤ 0) := by omega
  have e1 : Int.fdiv (t : Int) 86400 = ((t / 86400 : Nat) : Int) := fdiv_natCast t 86400
  have e2 : Int.fdiv (Int.tmod (t : Int) 86400) 3600 = ((t % 86400 / 3600 : Nat) : Int) := by
    rw [show (86400 : Int) = ((86400 : Nat) : Int) from rfl, tmod_natCast]
    exact fdiv_natCast _ 3600
  have e3 : Int.fdiv (Int.tmod (t : Int) 3600) 60 = ((t % 3600 / 60 : Nat) : Int) := by
    rw [show (3600 : Int) = ((3600 : Nat) : Int) from rfl, tmod_natCast]
    exact fdiv_natCast _ 60
  have e4 : Int.tmod (t : Int) 60 = ((t % 60 : Nat) : Int) := tmod_natCast t 60
  simp only [tick, hn, if_false, ht, e1, e2, e3, e4, Page.write, List.append_assoc,
    List.cons_append, List.nil_append]

theorem fields_append_four (p : Page) (a b c d : String) :
    Page.fields { p with writes := p.writes ++
      [(Slot.days, a), (Slot.hours, b), (Slot.minutes, c), (Slot.seconds, d)] } =
      [some a, some b, some c, some d] := by
  simp [Page.fields, Page.textContent]

end Countdown

namespace Countdown

/-- C1. For every target `T` and every `now` strictly before `T`, with
`s = floor((T - now) / 1000)`, `tick` completes without error and shows days, hours, minutes
and seconds whose values `d, h, m, sec` satisfy `d*86400 + h*3600 + m*60 + sec = s`; hours,
minutes and seconds are each at most 59 and are shown by `pad` as exactly two decimal digits;
days is a natural number shown as its decimal numeral without padding. When `s = 90` the
fields read "0", "00", "01", "30". -/
theorem tick_displays_decomposition (target now : Int) (p : Page) (h : now < target) :
    ∃ d hh m sec : Nat, ∃ ds hs ms ss : String,
      Int.fdiv (target - now) 1000 = (d : Int) * 86400 + hh * 3600 + m * 60 + sec ∧
      hh ≤ 59 ∧ m ≤ 59 ∧ sec ≤ 59 ∧
      (tick target now p).thrown = none ∧
      (tick target now p).state.fields = [some ds, some hs, some ms, some ss] ∧
      Unpadded ds d ∧
      hs = pad hh ∧ TwoDigit hs hh ∧ ms = pad m ∧ TwoDigit ms m ∧ ss = pad sec ∧ TwoDigit ss sec ∧
      (Int.fdiv (target - now) 1000 = 90 → ds = "0" ∧ hs = "00" ∧ ms = "01" ∧ ss = "30") := by
  have hpos : 0 < target - now := by omega
  have hnn : 0 ≤ Int.fdiv (target - now) 1000 := Int.fdiv_nonneg (by omega) (by decide)
  obtain ⟨t, ht⟩ := Int.eq_ofNat_of_zero_le hnn
  have hh1 : t % 86400 / 3600 ≤ 59 := by omega
  have hm1 : t % 3600 / 60 ≤ 59 := by omega
  have hs1 : t % 60 ≤ 59 := by omega
  refine ⟨t / 86400, t % 86400 / 3600, t % 3600 / 60, t % 60, _, _, _, _, ?_, hh1, hm1, hs1, ?_, ?_,
    numberToString_unpadded _, rfl, pad_twoDigit _ hh1, rfl, pad_twoDigit _ hm1, rfl,
    pad_twoDigit _ hs1, ?_⟩
  · rw [ht]; omega
  · rw [tick_before target now p hpos t ht]
  · rw [tick_before target now p hpos t ht, fields_append_four]
  · intro h90
    have : t = 90 := by omega
    subst this
    exact ⟨by decide, by decide, by decide, by decide⟩

/-- The scenario of C1: 90 seconds before the target. -/
theorem tick_displays_decomposition_witness :
    ∃ d hh m sec : Nat, ∃ ds hs ms ss : String,
      Int.fdiv (1847203200000 - 1847203110000) 1000
        = (d : Int) * 86400 + hh * 3600 + m * 60 + sec ∧
      hh ≤ 59 ∧ m ≤ 59 ∧ sec ≤ 59 ∧
      (tick 1847203200000 1847203110000 Page.initial).thrown = none ∧
      (tick 1847203200000 1847203110000 Page.initial).state.fields
        = [some ds, some hs, some ms, some ss] ∧
      Unpadded ds d ∧
      hs = pad hh ∧ TwoDigit hs hh ∧ ms = pad m ∧ TwoDigit ms m ∧ ss = pad sec ∧ TwoDigit ss sec ∧
      (Int.fdiv (1847203200000 - 1847203110000) 1000 = 90 →
        ds = "0" ∧ hs = "00" ∧ ms = "01" ∧ ss = "30") :=
  tick_displays_decomposition 1847203200000 1847203110000 Page.initial (by decide)

end Countdown

namespace Countdown

theorem tick_reached_bound (target now : Int) (p : Page) (h : target - now ≤ 0) (id : Nat)
    (hid : p.timerId = some id) :
    tick target now p =
      { state := clearInterval id { p with writes := p.writes ++ startedWritesList },
        thrown := none } := by
  simp [tick, h, Page.write, hid, startedWritesList]

theorem tick_reached_deadzone (target now : Int) (p : Page) (h : target - now ≤ 0)
    (hid : p.timerId = none) :
    tick target now p =
      { state := { p with writes := p.writes ++ startedWritesList },
        thrown := some (.referenceError "timerId") } := by
  simp [tick, h, Page.write, hid, startedWritesList]

theorem tick_reached_writes (target now : Int) (p : Page) (h : target - now ≤ 0) :
    (tick target now p).state.writes = p.writes ++ startedWritesList := by
  cases hid : p.timerId with
  | none => rw [tick_reached_deadzone target now p h hid]
  | some id =>
    rw [tick_reached_bound target now p h id hid]
    simp only [clearInterval]
    split <;> rfl

theorem shows_started_of_writes (q : Page) (ws : List (Slot × String))
    (h : q.writes = ws ++ startedWritesList) :
    q.fields = [some "0", some "00", some "00", some "00"] ∧
      q.textContent .note = some "Event started!" := by
  simp [Page.fields, Page.textContent, h, startedWritesList]

theorem run_of_no_interval (target : Int) (p : Page) (h : p.interval = none)
    (clocks : List Int) : run target p clocks = p := by
  induction clocks with
  | nil => rfl
  | cons c cs ih =>
    have : fire target p c = p := by simp [fire, h]
    simpa [run, this] using ih

end Countdown

namespace Countdown

theorem startedWrites_fields (ws : List (Slot × String)) (a b c d : String) :
    List.count (Slot.note, "Event started!")
      (ws ++ [(Slot.days, a), (Slot.hours, b), (Slot.minutes, c), (Slot.seconds, d)]) =
      List.count (Slot.note, "Event started!") ws := by
  simp [List.count_append, List.count_cons]

theorem startedWrites_started (ws : List (Slot × String)) :
    List.count (Slot.note, "Event started!") (ws ++ startedWritesList) =
      List.count (Slot.note, "Event started!") ws + 1 := by
  simp [List.count_append, List.count_cons, startedWritesList]

theorem fire_counting_before (target now : Int) (p : Page) (hp : p.Counting)
    (h : now < target) : (fire target p now).Counting := by
  obtain ⟨hi, ht, hc⟩ := hp
  have hpos : 0 < target - now := by omega
  obtain ⟨t, ht'⟩ := Int.eq_ofNat_of_zero_le
    (Int.fdiv_nonneg (a := target - now) (b := 1000) (by omega) (by decide))
  simp only [fire, hi, Option.isSome_some, if_true, tick_before target now p hpos t ht']
  refine ⟨rfl, ht, ?_⟩
  simpa [Page.startedWrites, startedWrites_fields] using hc

theorem fire_counting_reached (target now : Int) (p : Page) (hp : p.Counting)
    (h : target ≤ now) : (fire target p now).Started := by
  obtain ⟨hi, ht, hc⟩ := hp
  have hle : target - now ≤ 0 := by omega
  have hw := tick_reached_writes target now p hle
  obtain ⟨hf, hn⟩ := shows_started_of_writes _ _ hw
  simp only [fire, hi, Option.isSome_some, if_true]
  refine ⟨hf, hn, ?_, ?_⟩
  · rw [tick_reached_bound target now p hle 1 ht]
    simp [clearInterval, hi]
  · simp only [Page.startedWrites] at hc ⊢
    rw [hw, startedWrites_started, hc]

theorem run_counting (target : Int) (clocks : List Int) :
    ∀ p : Page, p.Counting → (∃ c ∈ clocks, target ≤ c) → (run target p clocks).Started := by
  induction clocks with
  | nil => intro p _ h; simp at h
  | cons c cs ih =>
    intro p hp h
    show (run target (fire target p c) cs).Started
    by_cases hc : target ≤ c
    · have hs := fire_counting_reached target c p hp hc
      rw [run_of_no_interval target _ hs.2.2.1]
      exact hs
    · apply ih _ (fire_counting_before target c p hp (by omega))
      obtain ⟨c', hmem, hle⟩ := h
      rcases List.mem_cons.1 hmem with rfl | hmem
      · exact absurd hle hc
      · exact ⟨c', hmem, hle⟩

theorem init_before (dateCtor : String → Option Int) (fmt : Int → String) (iso : String)
    (target now : Int) (p : Page) (hT : parseTarget dateCtor iso = some target)
    (h : now < target) (hc : p.startedWrites = 0) :
    (init dateCtor fmt iso now p).thrown = none ∧
      (init dateCtor fmt iso now p).state.Counting := by
  have hpos : 0 < target - now := by omega
  obtain ⟨t, ht'⟩ := Int.eq_ofNat_of_zero_le
    (Int.fdiv_nonneg (a := target - now) (b := 1000) (by omega) (by decide))
  simp only [init, hT, tick_before target now _ hpos t ht', setInterval, Page.Counting,
    Page.startedWrites, Page.write, true_and]
  simp only [Page.startedWrites] at hc
  simp [List.count_append, List.count_cons, hc]

theorem init_reached (dateCtor : String → Option Int) (fmt : Int → String) (iso : String)
    (target now : Int) (p : Page) (hT : parseTarget dateCtor iso = some target)
    (h : target ≤ now) (hid : p.timerId = none) :
    init dateCtor fmt iso now p =
      { state := { p with writes := p.writes ++ [(Slot.targetDisplay, "Target: " ++ fmt target)]
                            ++ startedWritesList },
        thrown := some (.referenceError "timerId") } := by
  have hle : target - now ≤ 0 := by omega
  simp only [init, hT]
  rw [tick_reached_deadzone target now _ hle (by simpa [Page.write] using hid)]
  simp [Page.write]

end Countdown

namespace Countdown

/-- C2. For every valid target `T`: a `tick` run with `now ≥ T` leaves the four fields
showing "0", "00", "00", "00" and the status note showing "Event started!", having written
the started state once, and it cancels the repeating schedule bound to `timerId`; and in
every history of the page (initialisation at `now0`, then the schedule's periods at
`clocks`) in which some reading is at or after `T`, the page shows the started state, no
schedule is live, the started message has been written exactly once, and whatever further
periods follow change nothing (no further display write). -/
theorem started_state_written_once (dateCtor : String → Option Int) (fmt : Int → String)
    (iso : String) (target : Int) (hT : parseTarget dateCtor iso = some target) :
    (∀ (p : Page) (now : Int), target ≤ now →
      (tick target now p).state.fields = [some "0", some "00", some "00", some "00"] ∧
      (tick target now p).state.textContent .note = some "Event started!" ∧
      (tick target now p).state.writes = p.writes ++ startedWritesList ∧
      (∀ id, p.timerId = some id → p.interval = some id →
        (tick target now p).state.interval = none)) ∧
    (∀ (now0 : Int) (clocks more : List Int), (target ≤ now0 ∨ ∃ c ∈ clocks, target ≤ c) →
      (run target (init dateCtor fmt iso now0 Page.initial).state clocks).fields
        = [some "0", some "00", some "00", some "00"] ∧
      (run target (init dateCtor fmt iso now0 Page.initial).state clocks).textContent .note
        = some "Event started!" ∧
      (run target (init dateCtor fmt iso now0 Page.initial).state clocks).interval = none ∧
      (run target (init dateCtor fmt iso now0 Page.initial).state clocks).startedWrites = 1 ∧
      run target (init dateCtor fmt iso now0 Page.initial).state (clocks ++ more)
        = run target (init dateCtor fmt iso now0 Page.initial).state clocks) := by
  constructor
  · intro p now h
    have hle : target - now ≤ 0 := by omega
    have hw := tick_reached_writes target now p hle
    obtain ⟨hf, hn⟩ := shows_started_of_writes _ _ hw
    refine ⟨hf, hn, hw, ?_⟩
    intro id hid hint
    rw [tick_reached_bound target now p hle id hid]
    simp [clearInterval, hint]
  · intro now0 clocks more h
    have key : (run target (init dateCtor fmt iso now0 Page.initial).state clocks).Started := by
      by_cases h0 : target ≤ now0
      · rw [init_reached dateCtor fmt iso target now0 Page.initial hT h0 rfl]
        rw [run_of_no_interval target _ rfl]
        obtain ⟨hf, hn⟩ := shows_started_of_writes
          { Page.initial with writes := Page.initial.writes ++
              [(Slot.targetDisplay, "Target: " ++ fmt target)] ++ startedWritesList } _ rfl
        refine ⟨hf, hn, rfl, ?_⟩
        simp only [Page.startedWrites]
        rw [startedWrites_started]
        simp [Page.initial, List.count_cons]
      · have hex : ∃ c ∈ clocks, target ≤ c := h.resolve_left h0
        exact run_counting target clocks _
          (init_before dateCtor fmt iso target now0 Page.initial hT (by omega) rfl).2 hex
    refine ⟨key.1, key.2.1, key.2.2.1, key.2.2.2, ?_⟩
    rw [run, List.foldl_append]
    exact run_of_no_interval target _ key.2.2.1 more

/-- A history for C2: loaded 90 s before the target, the third period is past it. -/
theorem started_state_written_once_witness :
    (run 1847203200000 (init sampleDate sampleLocale TARGET_ISO 1847203110000
        Page.initial).state [1847203111000, 1847203199500, 1847203200400]).startedWrites = 1 ∧
      run 1847203200000 (init sampleDate sampleLocale TARGET_ISO 1847203110000
        Page.initial).state ([1847203111000, 1847203199500, 1847203200400] ++ [1847203201400])
      = run 1847203200000 (init sampleDate sampleLocale TARGET_ISO 1847203110000
        Page.initial).state [1847203111000, 1847203199500, 1847203200400] :=
  have h := (started_state_written_once sampleDate sampleLocale TARGET_ISO 1847203200000
    (by decide)).2 1847203110000 [1847203111000, 1847203199500, 1847203200400] [1847203201400]
    (Or.inr ⟨1847203200400, by simp, by decide⟩)
  ⟨h.2.2.2.1, h.2.2.2.2⟩

/-- C3 (evaluation at the failing input). With the configured target already reached when the
page loads, the first `tick()` of the initialising block reads `timerId` before its
declaration has run: the block ends with a `ReferenceError`, after the started state was
written, and the repeating schedule is never created. -/
theorem init_throws_when_target_reached :
    (init sampleDate sampleLocale TARGET_ISO 1847203200000 Page.initial).thrown
        = some (JSError.referenceError "timerId") ∧
      (init sampleDate sampleLocale TARGET_ISO 1847203200000 Page.initial).state.interval
        = none ∧
      (init sampleDate sampleLocale TARGET_ISO 1847203200000 Page.initial).state.timerId
        = none ∧
      (init sampleDate sampleLocale TARGET_ISO 1847203200000 Page.initial).state.textContent
        .note = some "Event started!" := by
  decide

/-- C4 (counterexample). With 500 ms left the floored remaining seconds are 0, yet a `tick`
run from the live schedule writes no started message and leaves the schedule running. -/
theorem tick_floored_zero_not_started :
    Int.fdiv (500 - 0) 1000 ≤ 0 ∧
      (tick 500 0 Page.live).state.textContent .note ≠ some "Event started!" ∧
      (tick 500 0 Page.live).state.startedWrites = 0 ∧
      (tick 500 0 Page.live).state.interval = some 1 := by
  decide

/-- C4 (amended). The started state is decided on the remaining milliseconds: whenever
`T - now ≤ 0`, `tick` shows zero in all four fields, writes "Event started!" and, when
`timerId` is bound to the live schedule, cancels it without error; when
`0 < T - now < 1000` (floored seconds 0) it shows zero in all four fields but writes nothing
to the status note and leaves the schedule as it was. -/
theorem tick_started_on_milliseconds (target now : Int) (p : Page) :
    (target - now ≤ 0 →
      (tick target now p).state.fields = [some "0", some "00", some "00", some "00"] ∧
      (tick target now p).state.textContent .note = some "Event started!" ∧
      (∀ id, p.timerId = some id → p.interval = some id →
        (tick target now p).state.interval = none ∧ (tick target now p).thrown = none)) ∧
    (0 < target - now → target - now < 1000 →
      (tick target now p).state.fields = [some "0", some "00", some "00", some "00"] ∧
      (tick target now p).state.textContent .note = p.textContent .note ∧
      (tick target now p).state.startedWrites = p.startedWrites ∧
      (tick target now p).state.interval = p.interval ∧
      (tick target now p).thrown = none) := by
  constructor
  · intro hle
    have hw := tick_reached_writes target now p hle
    obtain ⟨hf, hn⟩ := shows_started_of_writes _ _ hw
    refine ⟨hf, hn, ?_⟩
    intro id hid hint
    rw [tick_reached_bound target now p hle id hid]
    simp [clearInterval, hint]
  · intro hpos hlt
    have ht : Int.fdiv (target - now) 1000 = ((0 : Nat) : Int) := by
      rw [Int.fdiv_eq_ediv _ (by decide)]; omega
    rw [tick_before target now p hpos 0 ht]
    refine ⟨?_, ?_, ?_, rfl, rfl⟩
    · rw [fields_append_four]; decide
    · simp [Page.textContent]
    · simp [Page.startedWrites, startedWrites_fields]

/-- Both cases of the amended C4 at concrete inputs. -/
theorem tick_started_on_milliseconds_witness :
    ((tick 1000 1000 Page.live).state.textContent .note = some "Event started!" ∧
      (tick 1000 1000 Page.live).state.interval = none) ∧
    ((tick 1000 1 Page.live).state.fields = [some "0", some "00", some "00", some "00"] ∧
      (tick 1000 1 Page.live).state.interval = Page.live.interval) :=
  ⟨⟨((tick_started_on_milliseconds 1000 1000 Page.live).1 (by decide)).2.1,
    (((tick_started_on_milliseconds 1000 1000 Page.live).1 (by decide)).2.2 1 rfl rfl).1⟩,
   ⟨((tick_started_on_milliseconds 1000 1 Page.live).2 (by decide) (by decide)).1,
    ((tick_started_on_milliseconds 1000 1 Page.live).2 (by decide) (by decide)).2.2.2.1⟩⟩

/-- C8. When the configured literal does not parse (`parseTarget` gives `null`), the
initialising block completes having written exactly the fixed diagnostic to the status note
and the empty string to the target display; none of the four countdown fields is written,
`timerId` is never bound, no repeating schedule exists, and no later period runs `tick`
(the page never changes again). -/
theorem init_invalid_target (dateCtor : String → Option Int) (fmt : Int → String)
    (iso : String) (now : Int) (h : parseTarget dateCtor iso = none) :
    (init dateCtor fmt iso now Page.initial).thrown = none ∧
      (init dateCtor fmt iso now Page.initial).state.writes =
        [(Slot.note, "Invalid target date — edit script.js TARGET_ISO."),
         (Slot.targetDisplay, "")] ∧
      (init dateCtor fmt iso now Page.initial).state.textContent .note
        = some "Invalid target date — edit script.js TARGET_ISO." ∧
      (init dateCtor fmt iso now Page.initial).state.textContent .targetDisplay = some "" ∧
      (init dateCtor fmt iso now Page.initial).state.fields = [none, none, none, none] ∧
      (init dateCtor fmt iso now Page.initial).state.timerId = none ∧
      (init dateCtor fmt iso now Page.initial).state.interval = none ∧
      (∀ (target : Int) (clocks : List Int),
        run target (init dateCtor fmt iso now Page.initial).state clocks
          = (init dateCtor fmt iso now Page.initial).state) := by
  have e : init dateCtor fmt iso now Page.initial =
      { state := { writes := [(Slot.note, "Invalid target date — edit script.js TARGET_ISO."),
                              (Slot.targetDisplay, "")],
                   timerId := none, interval := none },
        thrown := none } := by
    simp [init, h, Page.write, Page.initial]
  rw [e]
  refine ⟨rfl, rfl, by decide, by decide, by decide, rfl, rfl, ?_⟩
  intro target clocks
  exact run_of_no_interval target _ rfl clocks

/-- An unparsable literal for C8. -/
theorem init_invalid_target_witness :
    (init sampleDate sampleLocale "14 July 2028 at four" 0 Page.initial).state.writes =
        [(Slot.note, "Invalid target date — edit script.js TARGET_ISO."),
         (Slot.targetDisplay, "")] ∧
      (init sampleDate sampleLocale "14 July 2028 at four" 0 Page.initial).state.interval
        = none :=
  have h := init_invalid_target sampleDate sampleLocale "14 July 2028 at four" 0 (by decide)
  ⟨h.2.1, h.2.2.2.2.2.2.1⟩

end Countdown

/-! ## Particle field: lemmas -/

namespace ParticleField

theorem get?_append_cons {α : Type} (A B : List α) (a : α) :
    (A ++ a :: B).get? A.length = some a := by
  induction A with
  | nil => rfl
  | cons c cs ih => simpa using ih

theorem set_append_cons {α : Type} (A B : List α) (a b : α) :
    (A ++ a :: B).set A.length b = A ++ b :: B := by
  induction A with
  | nil => rfl
  | cons c cs ih => simp [ih]

theorem splice_append_cons {α : Type} (A B : List α) (a : α) :
    splice (A ++ a :: B) A.length 1 = A ++ B := by
  simp [splice, List.take_append_eq_append_take, List.drop_append_eq_append_drop]

/-- The backward loop with in-place removal is "apply the body to each element once, then
drop the elements satisfying the condition": on a prefix `A` still to visit and a processed
tail `B`. -/
theorem backwardLoop_append {α : Type} (body : α → α) (cond : α → Bool) (A : List α) :
    ∀ B : List α, backwardLoop body cond A.length (A ++ B) =
      some ((A.map body).filter (fun e => !cond e) ++ B) := by
  induction A using List.reverseRecOn with
  | nil => intro B; simp [backwardLoop]
  | append_singleton A a ih =>
    intro B
    have hlen : (A ++ [a]).length = A.length + 1 := by simp
    rw [hlen, List.append_assoc, List.singleton_append]
    simp only [backwardLoop, get?_append_cons, set_append_cons]
    by_cases hc : cond (body a) = true
    · simp only [hc, if_true, splice_append_cons]
      rw [ih B]
      simp [List.filter_append, hc]
    · simp only [hc, Bool.false_eq_true, if_false]
      rw [ih (body a :: B)]
      simp [List.filter_append, hc]

theorem backwardLoop_eq {α : Type} (body : α → α) (cond : α → Bool) (xs : List α) :
    backwardLoop body cond xs.length xs = some ((xs.map body).filter (fun e => !cond e)) := by
  simpa using backwardLoop_append body cond xs []

end ParticleField

namespace ParticleField

section
variable {F : Type} [Add F] [Sub F] [Mul F] [Neg F] [OfScientific F]

theorem push_loop_eq (H : Host F) (k : Nat) (x y : F) (n : Nat) (ps : List (Particle F)) :
    (List.range n).foldl (fun ps i => ps ++ [newParticle H (k + 8 * i) x y]) ps =
      ps ++ freshParticles H k x y n := by
  induction n with
  | zero => simp [freshParticles]
  | succ n ih =>
    simp only [List.range_succ, List.foldl_append, List.foldl_cons, List.foldl_nil, ih,
      freshParticles, List.map_append, List.map_cons, List.map_nil, List.append_assoc]

theorem freshParticles_length (H : Host F) (k : Nat) (x y : F) (n : Nat) :
    (freshParticles H k x y n).length = n := by
  simp [freshParticles]

/-- The array after `spawnParticles`: old entries then new ones, cut from the front. -/
theorem spawnParticles_eq_drop (H : Host F) (k : Nat) (ps : List (Particle F)) (x y : F)
    (n : Nat) :
    spawnParticles H k ps x y (some n) =
      (ps ++ freshParticles H k x y n).drop (ps.length + n - 1200) := by
  unfold spawnParticles
  simp only [Option.getD_some]
  rw [push_loop_eq]
  have hlen : (ps ++ freshParticles H k x y n).length = ps.length + n := by
    rw [List.length_append, freshParticles_length]
  by_cases h : (ps ++ freshParticles H k x y n).length > 1200
  · rw [if_pos h, hlen, splice, List.take_zero, List.nil_append, Nat.zero_add]
  · rw [if_neg h]
    have : ps.length + n - 1200 = 0 := by omega
    rw [this, List.drop_zero]

end

end ParticleField

namespace ParticleField

section
variable {F : Type} [Add F] [Sub F] [Mul F] [Neg F] [OfScientific F]

/-- C5. For every particle collection of length `m` and every count `N`, after
`spawnParticles(x, y, N)` the collection has length `m + N` when `m + N ≤ 1200` and 1200
otherwise; with the count omitted (default 28) on an empty collection the length is 28. -/
theorem spawnParticles_length (H : Host F) (k : Nat) (ps : List (Particle F)) (x y : F)
    (n : Nat) :
    (spawnParticles H k ps x y (some n)).length =
        (if ps.length + n ≤ 1200 then ps.length + n else 1200) ∧
      (spawnParticles H k [] x y none).length = 28 := by
  constructor
  · rw [spawnParticles_eq_drop, List.length_drop, List.length_append, freshParticles_length]
    split <;> omega
  · have h : spawnParticles H k [] x y none = spawnParticles H k [] x y (some 28) := rfl
    rw [h, spawnParticles_eq_drop, List.length_drop, List.length_append,
      freshParticles_length, List.length_nil]

/-- C6. After `spawnParticles(x, y, N)` the collection is the old entries followed by the
`N` new ones in creation order, with the leading `m + N - 1200` entries of that sequence
removed (nothing removed when `m + N ≤ 1200`): the entries removed by the cap are exactly
the leading, oldest ones and the survivors keep their relative order; and for every count
the cap leaves room for (`N ≤ 1200`, as every call of the script is) the `N` most recently
added particles are all present, as the trailing entries after the surviving old ones. -/
theorem spawnParticles_keeps_newest (H : Host F) (k : Nat) (ps : List (Particle F)) (x y : F)
    (n : Nat) :
    spawnParticles H k ps x y (some n) =
        (ps ++ freshParticles H k x y n).drop (ps.length + n - 1200) ∧
      (n ≤ 1200 → spawnParticles H k ps x y (some n) =
        ps.drop (ps.length + n - 1200) ++ freshParticles H k x y n) := by
  refine ⟨spawnParticles_eq_drop H k ps x y n, fun hn => ?_⟩
  rw [spawnParticles_eq_drop]
  exact List.drop_append_of_le_length (by omega)

end

section
variable {F : Type} [Add F] [Mul F] [OfScientific F]

theorem stepParticle_eq_specPhysics (p : Particle F) : stepParticle p = specPhysics p := rfl

variable [LT F] [∀ a b : F, Decidable (a < b)]

/-- The array after `updateParticles`, for any number type. -/
theorem updateParticles_eq (ps : List (Particle F)) :
    updateParticles ps = some (specUpdateParticles ps) := by
  unfold updateParticles specUpdateParticles
  rw [backwardLoop_eq]
  have hf : (stepParticle : Particle F → Particle F) = specPhysics :=
    funext stepParticle_eq_specPhysics
  rw [hf]
  congr 2
  funext p
  simp

/-- C9. For every particle collection, one `updateParticles` step (the backward loop that
splices in place) returns normally and equals: apply the physics step to every particle
exactly once (age + 1; x + vx and y + vy with the old velocity; vy := (vy + 0.04) * 0.998;
vx := vx * 0.996; rot + spin), then keep exactly the particles whose age does not exceed
their lifetime, in their original relative order. This holds for any number type; on exact
rationals the kept particles are those with `age ≤ life`. -/
theorem updateParticles_refines_spec (ps : List (Particle F)) (qs : List (Particle ℚ)) :
    updateParticles ps =
        some ((ps.map specPhysics).filter (fun p => decide (¬ p.age > p.life))) ∧
      updateParticles qs =
        some ((qs.map specPhysics).filter (fun p => decide (p.age ≤ p.life))) := by
  refine ⟨updateParticles_eq ps, ?_⟩
  rw [updateParticles_eq qs, specUpdateParticles]
  congr 2
  funext p
  simp

end

end ParticleField

namespace ParticleField

/-- C6 on a full collection: 36 particles (the count of a pointer event) spawned on 1200
existing ones evict the 36 oldest and are all present at the end. -/
theorem spawnParticles_keeps_newest_witness :
    spawnParticles sampleHost 9600 (freshParticles sampleHost 0 5 5 1200) 0 0 (some 36) =
        (freshParticles sampleHost 0 5 5 1200).drop 36 ++ freshParticles sampleHost 9600 0 0 36 ∧
      (spawnParticles sampleHost 9600 (freshParticles sampleHost 0 5 5 1200) 0 0
        (some 36)).length = 1200 := by
  have h := (spawnParticles_keeps_newest sampleHost 9600 (freshParticles sampleHost 0 5 5 1200)
    0 0 36).2 (by decide)
  rw [freshParticles_length] at h
  have h36 : (1200 + 36 - 1200 : Nat) = 36 := rfl
  rw [h36] at h
  refine ⟨h, ?_⟩
  rw [h, List.length_append, List.length_drop, freshParticles_length, freshParticles_length]

end ParticleField

namespace ParticleField

theorem aged_newParticle (H : Host ℚ) (hH : H.Standard) (k : Nat) (x y : ℚ) :
    0 ≤ (newParticle H k x y).age ∧ (newParticle H k x y).age ≤ (newParticle H k x y).life ∧
      0 < (newParticle H k x y).life := by
  obtain ⟨hfloor, _, hrand⟩ := hH
  have hr := (hrand (k + 3)).1
  have hlife : (32 : ℚ) ≤ (newParticle H k x y).life := by
    simp only [newParticle, random, maxParticleLife, hfloor]
    have : ((32 : ℤ) : ℚ) ≤ ((⌊H.random (k + 3) * (80.0 - 80.0 * 0.4) + 80.0 * 0.4⌋ : ℤ) : ℚ) := by
      apply Int.cast_le.2
      apply Int.le_floor.2
      norm_num
      positivity
    simpa using this
  have hage : (newParticle H k x y).age = 0 := by
    simp only [newParticle]; norm_num
  rw [hage]
  exact ⟨le_refl 0, by linarith, by linarith⟩

theorem aged_spawnParticles (H : Host ℚ) (hH : H.Standard) (k : Nat) (ps : List (Particle ℚ))
    (x y : ℚ) (count : Option Nat) (h : Aged ps) : Aged (spawnParticles H k ps x y count) := by
  have hc : spawnParticles H k ps x y count = spawnParticles H k ps x y (some (count.getD 28)) := by
    cases count <;> rfl
  rw [hc, spawnParticles_eq_drop]
  intro p hp
  rcases List.mem_append.1 (List.mem_of_mem_drop hp) with hp | hp
  · exact h p hp
  · obtain ⟨i, _, rfl⟩ := List.mem_map.1 hp
    exact aged_newParticle H hH _ x y

theorem aged_specUpdateParticles (ps : List (Particle ℚ)) (h : Aged ps) :
    Aged (specUpdateParticles ps) := by
  intro p hp
  obtain ⟨hmem, hkeep⟩ := List.mem_filter.1 hp
  obtain ⟨q, hq, rfl⟩ := List.mem_map.1 hmem
  obtain ⟨h0, _, hl⟩ := h q hq
  have hk : ¬ (specPhysics q).age > (specPhysics q).life := by simpa using hkeep
  refine ⟨?_, not_lt.1 hk, hl⟩
  simp only [specPhysics]
  norm_num
  linarith

theorem drawParticles_alpha (H : Host ℚ) (hH : H.Standard) (ps : List (Particle ℚ)) :
    (drawParticles H ps).map (fun d => d.globalAlpha) =
      ps.map (fun p => max 0 (opacity p.age p.life)) := by
  obtain ⟨_, hmax, _⟩ := hH
  simp only [drawParticles, List.map_map]
  apply List.map_congr_left
  intro p _
  simp only [Function.comp, hmax, opacity]
  norm_num

/-- C7. For a lifetime > 0 the render opacity `1 - age/life` is strictly decreasing in the
age and is ≤ 0 at `age = life`; after every `updateParticles` step, on any number type, no
particle with `age > life` is in the collection; and on exact rationals, with the host's
`Math.floor`, `Math.max` and `Math.random` as documented, the invariant "0 ≤ age ≤ life and
life > 0 for every particle" holds for the empty collection and is kept by `spawnParticles`
and by `updateParticles`, and under it every opacity set by `drawParticles`, which is
`max(0, 1 - age/life)`, lies in [0, 1]. -/
theorem particle_opacity_invariant {F : Type} [Add F] [Mul F] [OfScientific F] [LT F]
    [∀ a b : F, Decidable (a < b)] (H : Host ℚ) (hH : H.Standard) :
    (∀ life age age' : ℚ, 0 < life → age < age' → opacity age' life < opacity age life) ∧
    (∀ life : ℚ, 0 < life → opacity life life ≤ 0) ∧
    (∀ ps : List (Particle F), ∃ out, updateParticles ps = some out ∧
      ∀ p ∈ out, ¬ p.age > p.life) ∧
    Aged [] ∧
    (∀ (k : Nat) (ps : List (Particle ℚ)) (x y : ℚ) (count : Option Nat),
      Aged ps → Aged (spawnParticles H k ps x y count)) ∧
    (∀ ps out : List (Particle ℚ), Aged ps → updateParticles ps = some out → Aged out) ∧
    (∀ ps : List (Particle ℚ), (drawParticles H ps).map (fun d => d.globalAlpha) =
      ps.map (fun p => max 0 (opacity p.age p.life))) ∧
    (∀ ps : List (Particle ℚ), Aged ps →
      ∀ d ∈ drawParticles H ps, 0 ≤ d.globalAlpha ∧ d.globalAlpha ≤ 1) := by
  refine ⟨?_, ?_, ?_, ?_, ?_, ?_, drawParticles_alpha H hH, ?_⟩
  · intro life age age' hl hlt
    simp only [opacity]
    have : age / life < age' / life := div_lt_div_of_pos_right hlt hl
    linarith
  · intro life hl
    simp only [opacity]
    rw [div_self (ne_of_gt hl)]
    norm_num
  · intro ps
    refine ⟨_, updateParticles_eq ps, ?_⟩
    intro p hp
    simpa using (List.mem_filter.1 hp).2
  · intro p hp
    simp at hp
  · intro k ps x y count h
    exact aged_spawnParticles H hH k ps x y count h
  · intro ps out h hout
    rw [updateParticles_eq] at hout
    cases hout
    exact aged_specUpdateParticles ps h
  · intro ps h d hd
    have hd2 : d.globalAlpha ∈ (drawParticles H ps).map (fun d => d.globalAlpha) :=
      List.mem_map.2 ⟨d, hd, rfl⟩
    rw [drawParticles_alpha H hH] at hd2
    obtain ⟨p, hp, hpe⟩ := List.mem_map.1 hd2
    obtain ⟨h0, h1, hl⟩ := h p hp
    rw [← hpe]
    refine ⟨le_max_left _ _, max_le (by norm_num) ?_⟩
    simp only [opacity]
    have : 0 ≤ p.age / p.life := div_nonneg h0 (le_of_lt hl)
    linarith

theorem sampleHost_standard : sampleHost.Standard := by
  refine ⟨fun _ => rfl, fun _ _ => rfl, fun k => ?_⟩
  simp only [sampleHost]
  have hk : (0 : ℚ) ≤ (k : ℚ) := Nat.cast_nonneg k
  constructor
  · positivity
  · rw [div_lt_one (by linarith)]
    linarith

/-- C7 on the sample host: three particles spawned on the empty collection, one frame. -/
theorem particle_opacity_invariant_witness :
    sampleHost.Standard ∧ Aged (spawnParticles sampleHost 0 [] 0 0 (some 3)) ∧
      ∀ d ∈ drawParticles sampleHost (spawnParticles sampleHost 0 [] 0 0 (some 3)),
        0 ≤ d.globalAlpha ∧ d.globalAlpha ≤ 1 :=
  have h := @particle_opacity_invariant ℚ _ _ _ _ _ sampleHost sampleHost_standard
  ⟨sampleHost_standard, h.2.2.2.2.1 0 [] 0 0 (some 3) h.2.2.2.1,
    h.2.2.2.2.2.2.2 _ (h.2.2.2.2.1 0 [] 0 0 (some 3) h.2.2.2.1)⟩

end ParticleField

namespace ParticleField

section
variable {F : Type} [Add F] [Mul F] [OfScientific F] [LT F] [∀ a b : F, Decidable (a < b)]

/-- The array after `updateRipples`, for any number type. -/
theorem updateRipples_eq (rs : List (Ripple F)) :
    updateRipples rs = some (specUpdateRipples rs) := by
  unfold updateRipples specUpdateRipples
  rw [backwardLoop_eq]
  have hf : (stepRipple : Ripple F → Ripple F) =
      fun r => { r with r := r.r + 6.0, alpha := r.alpha * 0.95 } := rfl
  rw [hf]
  congr 2
  funext r
  simp

theorem ripplesAfter_eq (n : Nat) (rs : List (Ripple F)) :
    ripplesAfter n rs = some (specUpdateRipples^[n] rs) := by
  induction n with
  | zero => rfl
  | succ n ih =>
    rw [ripplesAfter, ih, Option.some_bind, updateRipples_eq, Function.iterate_succ_apply']

theorem specUpdateRipples_append (A B : List (Ripple F)) :
    specUpdateRipples (A ++ B) = specUpdateRipples A ++ specUpdateRipples B := by
  simp [specUpdateRipples]

theorem specUpdateRipples_iterate_append (n : Nat) :
    ∀ A B : List (Ripple F),
      specUpdateRipples^[n] (A ++ B) = specUpdateRipples^[n] A ++ specUpdateRipples^[n] B := by
  induction n with
  | zero => intro A B; rfl
  | succ n ih =>
    intro A B
    rw [Function.iterate_succ_apply, Function.iterate_succ_apply, Function.iterate_succ_apply,
      specUpdateRipples_append, ih]

end

theorem ripple_alpha_ge (j : Nat) (h : j ≤ 66) : (0.02 : ℚ) ≤ 0.6 * 0.95 ^ j := by
  have h1 : (0.95 : ℚ) ^ 66 ≤ 0.95 ^ j :=
    pow_le_pow_of_le_one (by norm_num) (by norm_num) h
  have h2 : (0.02 : ℚ) ≤ 0.6 * 0.95 ^ 66 := by norm_num
  have h3 : (0.6 : ℚ) * 0.95 ^ 66 ≤ 0.6 * 0.95 ^ j :=
    mul_le_mul_of_nonneg_left h1 (by norm_num)
  linarith

theorem ripple_alpha_lt : (0.6 : ℚ) * 0.95 ^ 67 < 0.02 := by norm_num

theorem single_ripple_iterate (x y : ℚ) (k : Nat) :
    specUpdateRipples^[k] [{ x := x, y := y, r := 2.0, alpha := 0.6 }] =
      if k ≤ 66 then [{ x := x, y := y, r := 2 + 6 * (k : ℚ), alpha := 0.6 * 0.95 ^ k }]
      else [] := by
  induction k with
  | zero => norm_num
  | succ k ih =>
    rw [Function.iterate_succ_apply', ih]
    by_cases hk : k + 1 ≤ 66
    · have hk0 : k ≤ 66 := by omega
      have hge := ripple_alpha_ge (k + 1) hk
      rw [if_pos hk0, if_pos hk]
      have hkeep : ¬ ((0.6 : ℚ) * 0.95 ^ k * 0.95 < 0.02) := by
        rw [not_lt]; rw [pow_succ] at hge; linarith
      simp only [specUpdateRipples, List.map_cons, List.map_nil, List.filter_cons,
        List.filter_nil, hkeep, not_false_eq_true, decide_True, if_true]
      congr 2
      · push_cast; ring
      · rw [pow_succ]; ring
    · rw [if_neg hk]
      by_cases hk0 : k ≤ 66
      · have hk66 : k = 66 := by omega
        subst hk66
        have hlt := ripple_alpha_lt
        have hdrop : ((0.6 : ℚ) * 0.95 ^ 66 * 0.95 < 0.02) := by
          rw [pow_succ] at hlt; linarith
        rw [if_pos hk0]
        simp only [specUpdateRipples, List.map_cons, List.map_nil, List.filter_cons,
          List.filter_nil, hdrop, not_true_eq_false, decide_False]
        rfl
      · rw [if_neg hk0]
        rfl

end ParticleField

namespace ParticleField

theorem rnd_bounds (rnd : ℚ → ℚ) (hr : ∀ q : ℚ, |rnd q - q| ≤ |q| / 2 ^ 53) (q : ℚ)
    (hq : 0 < q) : q * 0.99999999 ≤ rnd q ∧ rnd q ≤ q * 1.00000001 := by
  have h := hr q
  rw [abs_of_pos hq, abs_le] at h
  have hu : q / 2 ^ 53 ≤ q * 0.00000001 := by
    rw [div_eq_mul_inv]
    apply mul_le_mul_of_nonneg_left _ (le_of_lt hq)
    norm_num
  constructor <;> linarith [h.1, h.2]

theorem roundedAlpha_bounds (rnd : ℚ → ℚ) (hr : ∀ q : ℚ, |rnd q - q| ≤ |q| / 2 ^ 53) :
    ∀ k : Nat, 0.59999999 * 0.94999998 ^ k ≤ roundedAlpha rnd k ∧
      roundedAlpha rnd k ≤ 0.60000001 * 0.95000002 ^ k := by
  have hc := rnd_bounds rnd hr 0.95 (by norm_num)
  intro k
  induction k with
  | zero =>
    have h0 := rnd_bounds rnd hr 0.6 (by norm_num)
    simp only [roundedAlpha, pow_zero, mul_one]
    constructor <;> norm_num at h0 ⊢ <;> linarith [h0.1, h0.2]
  | succ k ih =>
    obtain ⟨hlo, hhi⟩ := ih
    have hpos : (0 : ℚ) < 0.59999999 * 0.94999998 ^ k := by positivity
    have ha : 0 < roundedAlpha rnd k := lt_of_lt_of_le hpos hlo
    have hcpos : (0 : ℚ) < rnd 0.95 := by
      have := hc.1; norm_num at this ⊢; linarith
    have hprod := rnd_bounds rnd hr (roundedAlpha rnd k * rnd 0.95) (mul_pos ha hcpos)
    have h1 : roundedAlpha rnd k * 0.94999999 ≤ roundedAlpha rnd k * rnd 0.95 := by
      apply mul_le_mul_of_nonneg_left _ (le_of_lt ha)
      have := hc.1; norm_num at this ⊢; linarith
    have h2 : roundedAlpha rnd k * rnd 0.95 ≤ roundedAlpha rnd k * 0.95000001 := by
      apply mul_le_mul_of_nonneg_left _ (le_of_lt ha)
      have := hc.2; norm_num at this ⊢; linarith
    simp only [roundedAlpha, pow_succ]
    constructor
    · calc (0.59999999 : ℚ) * (0.94999998 ^ k * 0.94999998)
          = (0.59999999 * 0.94999998 ^ k) * 0.94999998 := by ring
        _ ≤ roundedAlpha rnd k * 0.94999998 :=
            mul_le_mul_of_nonneg_right hlo (by norm_num)
        _ ≤ (roundedAlpha rnd k * 0.94999999) * 0.99999999 := by
            have : (0.94999998 : ℚ) ≤ 0.94999999 * 0.99999999 := by norm_num
            nlinarith [this, ha]
        _ ≤ (roundedAlpha rnd k * rnd 0.95) * 0.99999999 :=
            mul_le_mul_of_nonneg_right h1 (by norm_num)
        _ ≤ rnd (roundedAlpha rnd k * rnd 0.95) := hprod.1
    · calc rnd (roundedAlpha rnd k * rnd 0.95)
          ≤ (roundedAlpha rnd k * rnd 0.95) * 1.00000001 := hprod.2
        _ ≤ (roundedAlpha rnd k * 0.95000001) * 1.00000001 :=
            mul_le_mul_of_nonneg_right h2 (by norm_num)
        _ ≤ roundedAlpha rnd k * 0.95000002 := by
            have : (0.95000001 : ℚ) * 1.00000001 ≤ 0.95000002 := by norm_num
            nlinarith [this, ha]
        _ ≤ (0.60000001 * 0.95000002 ^ k) * 0.95000002 :=
            mul_le_mul_of_nonneg_right hhi (by norm_num)
        _ = 0.60000001 * (0.95000002 ^ k * 0.95000002) := by ring

end ParticleField

namespace ParticleField

theorem specUpdateRipples_single_rounded (rnd : ℚ → ℚ) (x y : Rounded rnd) (k : Nat) :
    specUpdateRipples
        [({ x := x, y := y, r := ⟨roundedRadius rnd k⟩, alpha := ⟨roundedAlpha rnd k⟩ } :
          Ripple (Rounded rnd))] =
      if roundedAlpha rnd (k + 1) < rnd 0.02 then []
      else [{ x := x, y := y, r := ⟨roundedRadius rnd (k + 1)⟩,
              alpha := ⟨roundedAlpha rnd (k + 1)⟩ }] := by
  have hlt : ((⟨roundedAlpha rnd (k + 1)⟩ : Rounded rnd) < 0.02) ↔
      roundedAlpha rnd (k + 1) < rnd 0.02 := Iff.rfl
  have hstep : Ripple.mk x y ((⟨roundedRadius rnd k⟩ : Rounded rnd) + 6.0)
        ((⟨roundedAlpha rnd k⟩ : Rounded rnd) * 0.95) =
      Ripple.mk x y ⟨roundedRadius rnd (k + 1)⟩ ⟨roundedAlpha rnd (k + 1)⟩ := rfl
  simp only [specUpdateRipples, List.map_cons, List.map_nil, hstep, List.filter_cons,
    List.filter_nil, hlt, decide_not]
  by_cases h : roundedAlpha rnd (k + 1) < rnd 0.02
  · simp [h]
  · simp [h]

theorem rounded_single_ripple (rnd : ℚ → ℚ) (hr : ∀ q : ℚ, |rnd q - q| ≤ |q| / 2 ^ 53)
    (x y : Rounded rnd) (k : Nat) :
    specUpdateRipples^[k] (spawnRipple [] x y) =
      if k ≤ 66 then [{ x := x, y := y, r := ⟨roundedRadius rnd k⟩,
                        alpha := ⟨roundedAlpha rnd k⟩ }]
      else [] := by
  have hth := rnd_bounds rnd hr 0.02 (by norm_num)
  induction k with
  | zero => rfl
  | succ k ih =>
    rw [Function.iterate_succ_apply', ih]
    obtain ⟨hlo, hhi⟩ := roundedAlpha_bounds rnd hr (k + 1)
    by_cases hk : k + 1 ≤ 66
    · have hk0 : k ≤ 66 := by omega
      rw [if_pos hk0, if_pos hk, specUpdateRipples_single_rounded]
      have h1 : (0.94999998 : ℚ) ^ 66 ≤ 0.94999998 ^ (k + 1) :=
        pow_le_pow_of_le_one (by norm_num) (by norm_num) hk
      have h2 : (0.020000001 : ℚ) ≤ 0.59999999 * 0.94999998 ^ 66 := by norm_num
      have h3 : (0.59999999 : ℚ) * 0.94999998 ^ 66 ≤ 0.59999999 * 0.94999998 ^ (k + 1) :=
        mul_le_mul_of_nonneg_left h1 (by norm_num)
      have hkeep : ¬ roundedAlpha rnd (k + 1) < rnd 0.02 := by
        rw [not_lt]
        have := hth.2
        norm_num at this
        linarith
      rw [if_neg hkeep]
    · rw [if_neg hk]
      by_cases hk0 : k ≤ 66
      · have hk66 : k = 66 := by omega
        subst hk66
        rw [if_pos hk0, specUpdateRipples_single_rounded]
        have h2 : (0.60000001 : ℚ) * 0.95000002 ^ 67 < 0.019999999 := by norm_num
        have hdrop : roundedAlpha rnd (66 + 1) < rnd 0.02 := by
          have := hth.1
          norm_num at this
          linarith
        rw [if_pos hdrop]
      · rw [if_neg hk0]
        rfl

/-- The ripple lifetime does not depend on exact arithmetic: under any arithmetic that
rounds each literal and each result with relative error at most `2^-53`, a ripple created by
`spawnRipple` is still in the collection after each of its first 66 updates and is removed
by the 67th. -/
theorem ripple_lifetime_under_rounding (rnd : ℚ → ℚ)
    (hr : ∀ q : ℚ, |rnd q - q| ≤ |q| / 2 ^ 53) (x y : Rounded rnd) (k : Nat) :
    (ripplesAfter k (spawnRipple [] x y)).map List.length =
      some (if k ≤ 66 then 1 else 0) := by
  rw [ripplesAfter_eq, rounded_single_ripple rnd hr]
  split <;> rfl

end ParticleField

namespace ParticleField

/-- C10. On exact rationals: a ripple created by `spawnRipple` (radius 2, opacity 0.6) has,
after `k` calls of `updateRipples`, radius `2 + 6k` and opacity `0.6 * 0.95^k` for every
`k ≤ 66` and is no longer in the collection for every `k ≥ 67`, whatever ripples come before
and after it in the array (they evolve independently); `0.6 * 0.95^j ≥ 0.02` for all
`j ≤ 66` and `0.6 * 0.95^67 < 0.02`, so the 67th update is the first at which its opacity is
below 0.02; every call of `updateRipples` returns and leaves no ripple with opacity below
0.02; the radius never decreases in a step; and the lifetime is the same under any
arithmetic that rounds each literal and each result with relative error at most `2^-53`:
the ripple is in the collection after `k ≤ 66` updates and not after `k ≥ 67`. -/
theorem ripple_removed_at_67th_update (pre post : List (Ripple ℚ)) (x y : ℚ) (k : Nat) :
    (∃ a b : List (Ripple ℚ), ripplesAfter k pre = some a ∧ ripplesAfter k post = some b ∧
      ripplesAfter k (spawnRipple pre x y ++ post) =
        some (a ++ (if k ≤ 66 then
            [{ x := x, y := y, r := 2 + 6 * (k : ℚ), alpha := 0.6 * 0.95 ^ k }]
          else []) ++ b)) ∧
    (∀ j : Nat, j ≤ 66 → (0.02 : ℚ) ≤ 0.6 * 0.95 ^ j) ∧
    (0.6 : ℚ) * 0.95 ^ 67 < 0.02 ∧
    (∀ rs : List (Ripple ℚ), ∃ out, updateRipples rs = some out ∧
      ∀ r ∈ out, ¬ r.alpha < 0.02) ∧
    (∀ r : Ripple ℚ, r.r ≤ (stepRipple r).r) ∧
    (∀ rnd : ℚ → ℚ, (∀ q : ℚ, |rnd q - q| ≤ |q| / 2 ^ 53) → ∀ x y : Rounded rnd,
      (ripplesAfter k (spawnRipple [] x y)).map List.length =
        some (if k ≤ 66 then 1 else 0)) := by
  refine ⟨⟨_, _, ripplesAfter_eq k pre, ripplesAfter_eq k post, ?_⟩, ripple_alpha_ge,
    ripple_alpha_lt, ?_, ?_, fun rnd hr x y => ripple_lifetime_under_rounding rnd hr x y k⟩
  · rw [ripplesAfter_eq, spawnRipple, specUpdateRipples_iterate_append,
      specUpdateRipples_iterate_append, single_ripple_iterate]
  · intro rs
    refine ⟨_, updateRipples_eq rs, ?_⟩
    intro r hr
    simpa [specUpdateRipples] using (List.mem_filter.1 hr).2
  · intro r
    simp only [stepRipple]
    norm_num

/-- C10 at the 66th and 67th update of a lone ripple, with exact arithmetic as the rounding. -/
theorem ripple_removed_at_67th_update_witness :
    (ripplesAfter 66 (spawnRipple [] (⟨0⟩ : Rounded id) ⟨0⟩)).map List.length = some 1 ∧
      (ripplesAfter 67 (spawnRipple [] (⟨0⟩ : Rounded id) ⟨0⟩)).map List.length = some 0 :=
  ⟨(ripple_removed_at_67th_update [] [] 0 0 66).2.2.2.2.2 id (fun q => by simp only [id, sub_self, abs_zero]; positivity) ⟨0⟩ ⟨0⟩,
   (ripple_removed_at_67th_update [] [] 0 0 67).2.2.2.2.2 id (fun q => by simp only [id, sub_self, abs_zero]; positivity) ⟨0⟩ ⟨0⟩⟩

end ParticleField
